import Mathlib

/-!
Verification development for `clean_and_count_lines.py`, the file
classification and content-extraction pipeline of the
LotusScript-Source-Code-Count repository.

Strings of the Python program are modelled as `List Char` (Python `str` is a
sequence of Unicode code points) and byte strings as `List Nat` with every
element below 256.  File-system reads are modelled by passing the file's
content bytes explicitly; the external markup parser (`xml.etree.ElementTree`)
is modelled by passing its result (`Option Elem`) explicitly.
-/

namespace CleanCount

/-- The set of characters Python's `str.isspace` (and hence `str.strip` and
`str.split()`) treats as whitespace. -/
def isPySpace (c : Char) : Bool :=
  c.toNat ∈ [9, 10, 11, 12, 13, 28, 29, 30, 31, 32, 133, 160, 5760,
    8192, 8193, 8194, 8195, 8196, 8197, 8198, 8199, 8200, 8201, 8202,
    8232, 8233, 8239, 8287, 12288]

/-- ASCII lowercasing of one character; models Python `str.lower()` on the
ASCII-only extension strings that the program compares against its
configuration sets. -/
def pyLowerChar (c : Char) : Char :=
  if 65 ≤ c.toNat ∧ c.toNat ≤ 90 then Char.ofNat (c.toNat + 32) else c

/-- Models Python `str.lower()` (ASCII range). -/
def pyLower (s : List Char) : List Char := s.map pyLowerChar

/-- `hasStart s p` models Python `s.startswith(p)`. -/
def hasStart {α : Type} [DecidableEq α] : List α → List α → Bool
  | _, [] => true
  | [], _ :: _ => false
  | c :: s, d :: p => c = d && hasStart s p

/-- Models Python `str.lstrip()`. -/
def pyLstrip (l : List Char) : List Char := l.dropWhile isPySpace

/-- Models Python `str.strip()`: drop leading and trailing whitespace. -/
def pyStrip (l : List Char) : List Char :=
  (((l.dropWhile isPySpace).reverse.dropWhile isPySpace)).reverse

/-- The characters Python `str.splitlines()` treats as line boundaries
(besides the CRLF pair): LF, VT, FF, CR, FS, GS, RS, NEL, LINE SEPARATOR,
PARAGRAPH SEPARATOR. -/
def isLineBreakChar (c : Char) : Bool :=
  c.toNat ∈ [10, 11, 12, 13, 28, 29, 30, 133, 8232, 8233]

/-- Worker for `splitlines`; `acc` holds the reversed current line. -/
def splitlinesAux : List Char → List Char → List (List Char)
  | [], acc => if acc.isEmpty then [] else [acc.reverse]
  | [c], acc =>
    if isLineBreakChar c then [acc.reverse]
    else [(c :: acc).reverse]
  | c1 :: c2 :: rest, acc =>
    if c1.toNat = 13 ∧ c2.toNat = 10 then acc.reverse :: splitlinesAux rest []
    else if isLineBreakChar c1 then acc.reverse :: splitlinesAux (c2 :: rest) []
    else splitlinesAux (c2 :: rest) (c1 :: acc)

/-- Models Python `str.splitlines()`: split on universal line boundaries,
treating CRLF as a single boundary, with no trailing empty line. -/
def splitlines (t : List Char) : List (List Char) := splitlinesAux t []

/-- Models Python `"\n".join(lines)`. -/
def joinNL : List (List Char) → List Char
  | [] => []
  | [l] => l
  | l :: l2 :: rest => l ++ '\n' :: joinNL (l2 :: rest)

/-- Source `is_empty_line`: `text.strip() == ""`. -/
def is_empty_line (text : List Char) : Bool := (pyStrip text).isEmpty

/-- Source `remove_empty_lines_normalized`:
`"\n".join(line for line in text.splitlines() if not is_empty_line(line))`. -/
def remove_empty_lines_normalized (text : List Char) : List Char :=
  joinNL ((splitlines text).filter (fun line => !is_empty_line line))

/-- Models Python `txt.replace("\r\n", "\n")` (left-to-right,
non-overlapping). -/
def replaceCRLF : List Char → List Char
  | '\r' :: '\n' :: rest => '\n' :: replaceCRLF rest
  | c :: rest => c :: replaceCRLF rest
  | [] => []

/-- Models Python `txt.replace("\r", "\n")`. -/
def replaceCR (l : List Char) : List Char :=
  l.map (fun c => if c = '\r' then '\n' else c)

/-! ### UTF-8 and Latin-1 decoding -/

/-- Is `b` a UTF-8 continuation byte (`0x80`–`0xBF`)? -/
def isCont (b : Nat) : Bool := 128 ≤ b && b < 192

/-- Valid second byte of a three-byte UTF-8 sequence with lead `b1`
(excluding overlong encodings and surrogates, as CPython does). -/
def utf8Valid3 (b1 b2 : Nat) : Bool :=
  (b1 = 224 && 160 ≤ b2 && b2 < 192) ||
  (225 ≤ b1 && b1 ≤ 236 && isCont b2) ||
  (b1 = 237 && 128 ≤ b2 && b2 < 160) ||
  (238 ≤ b1 && b1 ≤ 239 && isCont b2)

/-- Valid second byte of a four-byte UTF-8 sequence with lead `b1`
(excluding overlong encodings and code points above U+10FFFF). -/
def utf8Valid4 (b1 b2 : Nat) : Bool :=
  (b1 = 240 && 144 ≤ b2 && b2 < 192) ||
  (241 ≤ b1 && b1 ≤ 243 && isCont b2) ||
  (b1 = 244 && 128 ≤ b2 && b2 < 144)

mutual

/-- Strict UTF-8 decoding of a byte list into code points; models Python
`bytes.decode("utf-8")`, returning `none` where CPython raises
`UnicodeDecodeError`.  The multi-byte sequences are handled by
`utf8DecodeMB`. -/
def utf8Decode : List Nat → Option (List Char)
  | [] => some []
  | b :: rest =>
    if b < 128 then (utf8Decode rest).map (fun s => Char.ofNat b :: s)
    else utf8DecodeMB b rest

/-- Decoding of one multi-byte UTF-8 sequence with lead byte `b` (128–255)
followed by `rest`, then the remainder of the stream. -/
def utf8DecodeMB (b : Nat) : List Nat → Option (List Char)
  | [] => none
  | b2 :: rest2 =>
    if 194 ≤ b && b ≤ 223 then
      if isCont b2 then
        (utf8Decode rest2).map (fun s => Char.ofNat ((b - 192) * 64 + (b2 - 128)) :: s)
      else none
    else if 224 ≤ b && b ≤ 239 then
      match rest2 with
      | b3 :: rest3 =>
        if utf8Valid3 b b2 && isCont b3 then
          (utf8Decode rest3).map
            (fun s => Char.ofNat ((b - 224) * 4096 + (b2 - 128) * 64 + (b3 - 128)) :: s)
        else none
      | [] => none
    else if 240 ≤ b && b ≤ 244 then
      match rest2 with
      | b3 :: b4 :: rest4 =>
        if utf8Valid4 b b2 && isCont b3 && isCont b4 then
          (utf8Decode rest4).map
            (fun s => Char.ofNat ((b - 240) * 262144 + (b2 - 128) * 4096 +
              (b3 - 128) * 64 + (b4 - 128)) :: s)
        else none
      | _ => none
    else none

end

/-- Permissive UTF-8 decoding that drops undecodable byte sequences; models
Python `bytes.decode("utf-8", errors="ignore")` (CPython skips the maximal
subpart of an ill-formed sequence). -/
def utf8DecodeIgnore : List Nat → List Char
  | [] => []
  | b :: rest =>
    if b < 128 then Char.ofNat b :: utf8DecodeIgnore rest
    else if 194 ≤ b && b ≤ 223 then
      match rest with
      | b2 :: rest2 =>
        if isCont b2 then Char.ofNat ((b - 192) * 64 + (b2 - 128)) :: utf8DecodeIgnore rest2
        else utf8DecodeIgnore (b2 :: rest2)
      | [] => []
    else if 224 ≤ b && b ≤ 239 then
      match rest with
      | b2 :: rest2 =>
        if utf8Valid3 b b2 then
          match rest2 with
          | b3 :: rest3 =>
            if isCont b3 then
              Char.ofNat ((b - 224) * 4096 + (b2 - 128) * 64 + (b3 - 128)) ::
                utf8DecodeIgnore rest3
            else utf8DecodeIgnore (b3 :: rest3)
          | [] => []
        else utf8DecodeIgnore (b2 :: rest2)
      | [] => []
    else if 240 ≤ b && b ≤ 244 then
      match rest with
      | b2 :: rest2 =>
        if utf8Valid4 b b2 then
          match rest2 with
          | b3 :: rest3 =>
            if isCont b3 then
              match rest3 with
              | b4 :: rest4 =>
                if isCont b4 then
                  Char.ofNat ((b - 240) * 262144 + (b2 - 128) * 4096 +
                    (b3 - 128) * 64 + (b4 - 128)) :: utf8DecodeIgnore rest4
                else utf8DecodeIgnore (b4 :: rest4)
              | [] => []
            else utf8DecodeIgnore (b3 :: rest3)
          | [] => []
        else utf8DecodeIgnore (b2 :: rest2)
      | [] => []
    else utf8DecodeIgnore rest

/-- Models Python `bytes.decode("latin1", errors="replace")`: Latin-1 maps
every byte to the code point of the same value and never fails, so the
`replace` handler is never invoked. -/
def latin1Decode (data : List Nat) : List Char := data.map Char.ofNat

/-- Source `load_xml_text`: read the file as text, UTF-8 with a Latin-1
fallback.  The file's bytes are passed in explicitly. -/
def load_xml_text (data : List Nat) : List Char :=
  match utf8Decode data with
  | some s => s
  | none => latin1Decode data

/-! ### Strict base64, modelling Python `base64.b64decode(s, validate=True)`
and `base64.b64encode` -/

/-- Value of one base64 alphabet character (`A`–`Z`, `a`–`z`, `0`–`9`,
`+`, `/`), `none` for anything else including the pad `=`. -/
def decodeB64Digit (c : Nat) : Option Nat :=
  if 65 ≤ c && c ≤ 90 then some (c - 65)
  else if 97 ≤ c && c ≤ 122 then some (c - 97 + 26)
  else if 48 ≤ c && c ≤ 57 then some (c - 48 + 52)
  else if c = 43 then some 62
  else if c = 47 then some 63
  else none

/-- The base64 alphabet character (as a code point) of a 6-bit value. -/
def encodeB64Digit (v : Nat) : Nat :=
  if v < 26 then 65 + v
  else if v < 52 then 97 + (v - 26)
  else if v < 62 then 48 + (v - 52)
  else if v = 62 then 43
  else 47

/-- Fully strict base64 decoding, as the spec's words "standard base64 with
strict padding/alphabet validation" describe: only alphabet characters, `=`
padding only at the end, at most two pads, total length a multiple of
four. -/
def b64decodeStrict : List Nat → Option (List Nat)
  | [] => some []
  | c1 :: c2 :: c3 :: c4 :: rest =>
    match decodeB64Digit c1, decodeB64Digit c2 with
    | some v1, some v2 =>
      if c3 = 61 then
        if c4 = 61 && rest.isEmpty then some [v1 * 4 + v2 / 16] else none
      else
        match decodeB64Digit c3 with
        | some v3 =>
          if c4 = 61 then
            if rest.isEmpty then some [v1 * 4 + v2 / 16, (v2 % 16) * 16 + v3 / 4]
            else none
          else
            match decodeB64Digit c4 with
            | some v4 =>
              (b64decodeStrict rest).map
                (fun bs => (v1 * 4 + v2 / 16) :: ((v2 % 16) * 16 + v3 / 4) ::
                  ((v3 % 4) * 64 + v4) :: bs)
            | none => none
        | none => none
    | _, _ => none
  | _ => none

/-- Worker for `b64decodePy`, processing four characters at a time after the
leading-padding check.  A group that starts with `=` is a run of trailing
padding after complete four-character groups: CPython accepts any number of
trailing pads there, but nothing may follow them.  A group of two digits
must be closed by exactly two pads at the end of the input, a group of three
digits by exactly one; a trailing group of one digit (one more than a
multiple of four) and a partial group without padding are errors, as is any
non-alphabet character. -/
def b64decodePyAux : List Nat → Option (List Nat)
  | [] => some []
  | c1 :: rest1 =>
    if c1 = 61 then
      if rest1.all (fun c => c = 61) then some [] else none
    else
      match rest1 with
      | c2 :: c3 :: c4 :: rest =>
        match decodeB64Digit c1, decodeB64Digit c2 with
        | some v1, some v2 =>
          if c3 = 61 then
            if c4 = 61 && rest.isEmpty then some [v1 * 4 + v2 / 16] else none
          else
            match decodeB64Digit c3 with
            | some v3 =>
              if c4 = 61 then
                if rest.isEmpty then
                  some [v1 * 4 + v2 / 16, (v2 % 16) * 16 + v3 / 4]
                else none
              else
                match decodeB64Digit c4 with
                | some v4 =>
                  (b64decodePyAux rest).map
                    (fun bs => (v1 * 4 + v2 / 16) :: ((v2 % 16) * 16 + v3 / 4) ::
                      ((v3 % 4) * 64 + v4) :: bs)
                | none => none
            | none => none
        | _, _ => none
      | _ => none

/-- Base64 decoding of a whitespace-free code-point list, modelling CPython
3.11's `base64.b64decode(s, validate=True)`, which is exactly
`binascii.a2b_base64(s, strict_mode=True)` (`Lib/base64.py`): only alphabet
characters; padding only as a trailing run; after complete four-character
groups any number of trailing pads is tolerated; a final group of two digits
needs exactly two pads, of three digits exactly one; a pads-only non-empty
input ("leading padding") and a digit count one more than a multiple of four
are errors; every `binascii.Error` is modelled as `none`.  Verified against
CPython 3.11.6 on a battery of accept/reject cases. -/
def b64decodePy (s : List Nat) : Option (List Nat) :=
  match s with
  | [] => some []
  | c :: _ => if c = 61 then none else b64decodePyAux s

/-- Standard base64 encoding of a byte list into a code-point list, modelling
`base64.b64encode`. -/
def b64encode : List Nat → List Nat
  | a :: b :: c :: rest =>
    encodeB64Digit (a / 4) :: encodeB64Digit ((a % 4) * 16 + b / 16) ::
      encodeB64Digit ((b % 16) * 4 + c / 64) :: encodeB64Digit (c % 64) :: b64encode rest
  | [a, b] =>
    [encodeB64Digit (a / 4), encodeB64Digit ((a % 4) * 16 + b / 16),
      encodeB64Digit ((b % 16) * 4), 61]
  | [a] =>
    [encodeB64Digit (a / 4), encodeB64Digit ((a % 4) * 16), 61, 61]
  | [] => []

/-! ### Configuration constants of the source (KONFIGURACIJA section) -/

/-- Source `INTERESTING_XML_TAGS`. -/
def INTERESTING_XML_TAGS : List (List Char) :=
  ["lotusscript".toList, "formula".toList, "rawitemdata".toList, "java".toList]

/-- Source `IGNORE_EXTENSIONS`. -/
def IGNORE_EXTENSIONS : List (List Char) :=
  [".png".toList, ".jpg".toList, ".jpeg".toList, ".gif".toList,
    ".metadata".toList, ".xml".toList]

/-- Source `ALWAYS_PROCESS_AS_TEXT_EXTENSIONS`. -/
def ALWAYS_PROCESS_AS_TEXT_EXTENSIONS : List (List Char) :=
  [".lss".toList, ".lsa".toList]

/-- Source `IGNORE_MAGIC_PREFIXES`: the bytes of `b"GIF89"`, `b"\x89PNG"` and
the ten JPEG/JFIF bytes `FF D8 FF E0 00 10 4A 46 49 46`. -/
def IGNORE_MAGIC_PREFIXES : List (List Nat) :=
  [[71, 73, 70, 56, 57],
   [137, 80, 78, 71],
   [255, 216, 255, 224, 0, 16, 74, 70, 73, 70]]

/-- Source `GLOBAL_BLOCKED_TAGS` (empty in the shipped configuration; every
entry is commented out). -/
def GLOBAL_BLOCKED_TAGS : List (List Char) := []

/-- Source `PER_EXTENSION_BLOCKED_TAGS` (empty in the shipped configuration),
a mapping from lowercased extension to the extra blocked tags. -/
def PER_EXTENSION_BLOCKED_TAGS : List (List Char × List (List Char)) := []

/-- Source `ZNANE_XML_DATOTEKE` (the Python set literal lists `".form"`
twice; as a set it holds thirteen extensions). -/
def ZNANE_XML_DATOTEKE : List (List Char) :=
  [".fa".toList, ".form".toList, ".column".toList, ".wsdl".toList,
    ".lsdb".toList, ".folder".toList, ".formset".toList, ".page".toList,
    ".view".toList, ".field".toList, ".outline".toList, ".subform".toList,
    ".javalib".toList]

/-! ### Classification helpers of the source -/

/-- Source `should_skip_by_extension`: the file's extension (as produced by
`os.path.splitext`), lowercased, is in the ignore set. -/
def should_skip_by_extension (ext : List Char) : Bool :=
  pyLower ext ∈ IGNORE_EXTENSIONS

/-- Source `read_header`: the first `length` bytes of a file, modelled on the
file's content bytes (an unreadable file yields `b""`, which the model's
always-readable content represents by an empty content list). -/
def read_header (content : List Nat) (length : Nat) : List Nat :=
  content.take length

/-- Source `starts_with_any`. -/
def starts_with_any (data : List Nat) (pres : List (List Nat)) : Bool :=
  pres.any (fun p => hasStart data p)

/-- The header read length of `should_skip_by_header`:
`max(len(x) for x in IGNORE_MAGIC_PREFIXES)`. -/
def magicReadLen : Nat :=
  (IGNORE_MAGIC_PREFIXES.map List.length).foldl Nat.max 0

/-- Source `should_skip_by_header`: read the header and test the magic
signatures; an empty header returns `False` before any matching. -/
def should_skip_by_header (content : List Nat) : Bool :=
  let header := read_header content magicReadLen
  if header.isEmpty then false
  else starts_with_any header IGNORE_MAGIC_PREFIXES

/-- Source `is_probably_xml`: known markup extension, or the first 128 bytes,
decoded as UTF-8 with errors ignored and left-stripped, start with `<?xml`
or `<`. -/
def is_probably_xml (ext : List Char) (content : List Nat) : Bool :=
  if pyLower ext ∈ ZNANE_XML_DATOTEKE then true
  else
    let text := pyLstrip (utf8DecodeIgnore (content.take 128))
    hasStart text "<?xml".toList || hasStart text "<".toList

/-- Source `get_local_tag`: `tag.rsplit(…, 1)[1]` after the last closing
brace (code point 125), else the tag unchanged. -/
def get_local_tag (tag : List Char) : List Char :=
  if Char.ofNat 125 ∈ tag then
    (tag.reverse.takeWhile (fun c => ¬ c = Char.ofNat 125)).reverse
  else tag

/-- Source `is_blocked_tag`, parametrised by the two block-list configuration
sets (`GLOBAL_BLOCKED_TAGS` and `PER_EXTENSION_BLOCKED_TAGS` in the shipped
configuration), which §6 of the spec treats as the configuration surface. -/
def is_blocked_tag (gbl : List (List Char))
    (perExt : List (List Char × List (List Char)))
    (localTag ext : List Char) : Bool :=
  if localTag ∈ gbl then true
  else
    let extra := ((perExt.find? (fun kv => kv.1 = pyLower ext)).map Prod.snd).getD []
    if localTag ∈ extra then true else false

/-! ### The payload decoder -/

/-- Source `decode_rawitemdata_base64`.  `"".join(raw.split())` removes every
whitespace character; `base64.b64decode(clean, validate=True)` first encodes
the string as ASCII (failure → exception → `None`), then validates and
decodes; the binary heuristic counts null/control bytes in the first 64
decoded bytes and rejects when the count exceeds 30 % of the window (the
comparison `non_text / len(head) > 0.30` on these bounded integers is exactly
`10 * non_text > 3 * len(head)`); then UTF-8 with Latin-1 fallback, newline
normalization and strip. -/
def decode_rawitemdata_base64 (raw : List Char) : Option (List Char) :=
  let clean := raw.filter (fun c => !isPySpace c)
  if clean.isEmpty then none
  else if clean.any (fun c => 128 ≤ c.toNat) then none
  else
    match b64decodePy (clean.map Char.toNat) with
    | none => none
    | some decoded =>
      if decoded.isEmpty then none
      else
        let head := decoded.take 64
        if ¬ head.isEmpty ∧
            10 * (head.countP (fun b => b = 0 ∨ b < 9 ∨ (14 ≤ b ∧ b < 32))) >
              3 * head.length then
          none
        else
          let txt :=
            match utf8Decode decoded with
            | some s => s
            | none => latin1Decode decoded
          let txt2 := pyStrip (replaceCR (replaceCRLF txt))
          if txt2.isEmpty then none else some txt2

/-! ### Statistics, the element tree, and the fragment extractor -/

/-- Source `init_stats` keys as a record: the statistics dictionary. -/
structure Stats where
  total_files : Nat
  processed_files : Nat
  skipped_files : Nat
  skipped_by_ext : Nat
  skipped_by_header : Nat
  xml_files : Nat
  rawitemdata_text : Nat
  rawitemdata_binary_or_failed : Nat
  java_lines : Nat
deriving DecidableEq, Repr

/-- Source `init_stats`: every counter starts at zero. -/
def init_stats : Stats :=
  { total_files := 0, processed_files := 0, skipped_files := 0,
    skipped_by_ext := 0, skipped_by_header := 0, xml_files := 0,
    rawitemdata_text := 0, rawitemdata_binary_or_failed := 0, java_lines := 0 }

/-- An `xml.etree.ElementTree` element: tag, optional direct text, children
in document order.  The stdlib parser itself is external to the repository;
its output tree is passed to the extractor explicitly. -/
inductive Elem where
  | mk (tag : List Char) (text : Option (List Char)) (children : List Elem)

/-- The tag of an element. -/
def Elem.tag : Elem → List Char
  | .mk t _ _ => t

/-- The direct text of an element (`elem.text`, `None` when absent). -/
def Elem.text : Elem → Option (List Char)
  | .mk _ t _ => t

/-- The children of an element in document order (`list(elem)`). -/
def Elem.children : Elem → List Elem
  | .mk _ _ c => c

/-- The element-local part of the source's inner `walk`: the fragments and
statistics updates this element itself contributes (the body of the
`if not is_blocked_tag(...) and local in INTERESTING_XML_TAGS` block),
before its children are visited. -/
def walkSelf (gbl : List (List Char))
    (perExt : List (List Char × List (List Char))) (file_ext : List Char)
    (localTag : List Char) (text : Option (List Char)) (stats : Stats) :
    List (List Char) × Stats :=
  if is_blocked_tag gbl perExt localTag file_ext = false ∧
      localTag ∈ INTERESTING_XML_TAGS then
    if localTag = "rawitemdata".toList then
      let raw := pyStrip (text.getD [])
      if raw.isEmpty then ([], stats)
      else
        match decode_rawitemdata_base64 raw with
        | some decoded =>
          ([remove_empty_lines_normalized decoded],
            { stats with rawitemdata_text := stats.rawitemdata_text + 1 })
        | none =>
          ([], { stats with rawitemdata_binary_or_failed :=
            stats.rawitemdata_binary_or_failed + 1 })
    else
      let t := pyStrip (text.getD [])
      if t.isEmpty then ([], stats)
      else
        let cleaned := remove_empty_lines_normalized t
        if cleaned.isEmpty then ([], stats)
        else
          ([cleaned],
            if localTag = "java".toList then
              { stats with java_lines :=
                stats.java_lines + (splitlines cleaned).length }
            else stats)
  else ([], stats)

mutual

/-- The inner `walk(elem, path_stack)` of source
`extract_interesting_xml_fragments`: returns the fragments this subtree
appends to `lines` (in order) and the updated statistics.  `path_stack` is
the stack of local tags above this element; the source pushes and pops it but
never reads it.  The block-list configuration is passed explicitly. -/
def walk (gbl : List (List Char)) (perExt : List (List Char × List (List Char)))
    (file_ext : List Char) : Elem → List (List Char) → Stats →
    List (List Char) × Stats
  | Elem.mk tag text children, path_stack, stats =>
    let localTag := get_local_tag tag
    let path2 := path_stack ++ [localTag]
    let selfResult := walkSelf gbl perExt file_ext localTag text stats
    let childResult := walkList gbl perExt file_ext children path2 selfResult.2
    (selfResult.1 ++ childResult.1, childResult.2)

/-- The `for child in list(elem): walk(child, path_stack)` loop. -/
def walkList (gbl : List (List Char))
    (perExt : List (List Char × List (List Char)))
    (file_ext : List Char) : List Elem → List (List Char) → Stats →
    List (List Char) × Stats
  | [], _, stats => ([], stats)
  | e :: rest, path_stack, stats =>
    let r1 := walk gbl perExt file_ext e path_stack stats
    let r2 := walkList gbl perExt file_ext rest path_stack r1.2
    (r1.1 ++ r2.1, r2.2)

end

/-- Source `extract_interesting_xml_fragments`.  `parsed` is the result of
the external `ET.fromstring(xml_text)`: `none` models a `ParseError`, in
which case the original text is returned unchanged; otherwise the tree is
walked and the collected fragments are joined with single line feeds (an
empty collection yields the empty string). -/
def extract_interesting_xml_fragments (gbl : List (List Char))
    (perExt : List (List Char × List (List Char)))
    (parsed : Option Elem) (xml_text : List Char) (file_ext : List Char)
    (stats : Stats) : List Char × Stats :=
  match parsed with
  | none => (xml_text, stats)
  | some root =>
    let r := walk gbl perExt file_ext root [] stats
    if r.1.isEmpty then ([], r.2)
    else (joinNL r.1, r.2)

/-! ### Per-file processing -/

/-- Source `process_xml_file`: extract the interesting fragments from the
loaded text (passing the raw, un-lowercased extension), then bump the
`xml_files` and `processed_files` counters.  The first component is the text
written to the destination, `none` when nothing is written (empty
extraction). -/
def process_xml_file (parsed : Option Elem) (content : List Nat)
    (ext : List Char) (stats : Stats) : Option (List Char) × Stats :=
  let xml_text := load_xml_text content
  let r := extract_interesting_xml_fragments GLOBAL_BLOCKED_TAGS
    PER_EXTENSION_BLOCKED_TAGS parsed xml_text ext stats
  let stats2 := { r.2 with
    xml_files := r.2.xml_files + 1
    processed_files := r.2.processed_files + 1 }
  ((if r.1.isEmpty then none else some r.1), stats2)

/-- Source `process_plain_text_file`: decode the bytes (UTF-8 with Latin-1
fallback), strip blank lines, write the result, and bump `processed_files`. -/
def process_plain_text_file (content : List Nat) (stats : Stats) :
    List Char × Stats :=
  let text :=
    match utf8Decode content with
    | some s => s
    | none => latin1Decode content
  let cleaned := remove_empty_lines_normalized text
  (cleaned, { stats with processed_files := stats.processed_files + 1 })

/-- A single input file: the extension produced by `os.path.splitext(src)`
(not yet lowercased) and the file's content bytes. -/
structure FileInput where
  ext : List Char
  content : List Nat
deriving DecidableEq

/-- The five possible outcomes of classifying one file (spec §3
`ClassificationDecision`). -/
inductive ClassificationDecision where
  | SkipExtension
  | SkipHeader
  | Markup
  | PlainText
  | SkipUnhandled
deriving DecidableEq, Repr

/-- The decision skeleton of source `process_single_file`: the branch taken
for a file, in the order the source tests them. -/
def process_single_file_decision (f : FileInput) : ClassificationDecision :=
  if should_skip_by_extension f.ext then ClassificationDecision.SkipExtension
  else if should_skip_by_header f.content then ClassificationDecision.SkipHeader
  else if is_probably_xml f.ext f.content then ClassificationDecision.Markup
  else if pyLower f.ext ∈ ALWAYS_PROCESS_AS_TEXT_EXTENSIONS then
    ClassificationDecision.PlainText
  else ClassificationDecision.SkipUnhandled

/-- Source `process_single_file` (its statistics effect): bump `total_files`,
then route the file exactly as the source's if-chain does.  `parsed` is the
external parser's result for the file's text, used only on the markup
branch. -/
def process_single_file (f : FileInput) (parsed : Option Elem)
    (stats : Stats) : Stats :=
  let stats := { stats with total_files := stats.total_files + 1 }
  if should_skip_by_extension f.ext then
    { stats with
      skipped_files := stats.skipped_files + 1
      skipped_by_ext := stats.skipped_by_ext + 1 }
  else if should_skip_by_header f.content then
    { stats with
      skipped_files := stats.skipped_files + 1
      skipped_by_header := stats.skipped_by_header + 1 }
  else if is_probably_xml f.ext f.content then
    (process_xml_file parsed f.content f.ext stats).2
  else if pyLower f.ext ∈ ALWAYS_PROCESS_AS_TEXT_EXTENSIONS then
    (process_plain_text_file f.content stats).2
  else
    { stats with skipped_files := stats.skipped_files + 1 }

/-! ### Spec-side definitions

These follow the spec's words and are compared with the source-derived
definitions above by the refinement theorems. -/

/-- Spec §4.2, written as the spec states it: exactly one decision, fixed
priority order, first match wins.  Step 2 is the Byte Sniffer of §4.1: read
as many leading bytes as the longest signature and match if the leading
bytes start with at least one signature (no separate empty-header case).
Step 3 is the markup judgement: known markup extension, or the first 128
bytes decoded permissively, left-trimmed, starting with `<?xml` or `<`. -/
def classifier_spec_decision (f : FileInput) : ClassificationDecision :=
  if pyLower f.ext ∈ IGNORE_EXTENSIONS then ClassificationDecision.SkipExtension
  else if IGNORE_MAGIC_PREFIXES.any
      (fun sig => hasStart (f.content.take magicReadLen) sig) then
    ClassificationDecision.SkipHeader
  else if pyLower f.ext ∈ ZNANE_XML_DATOTEKE ∨
      hasStart (pyLstrip (utf8DecodeIgnore (f.content.take 128))) "<?xml".toList ∨
      hasStart (pyLstrip (utf8DecodeIgnore (f.content.take 128))) "<".toList then
    ClassificationDecision.Markup
  else if pyLower f.ext ∈ ALWAYS_PROCESS_AS_TEXT_EXTENSIONS then
    ClassificationDecision.PlainText
  else ClassificationDecision.SkipUnhandled

/-- Spec §4.3, written as the spec states it: strip all whitespace; empty →
no output; strict base64 decode, invalid → no output; empty bytes → no
output; count null bytes, bytes below 9 and bytes in 14–31 inclusive within
the first 64 decoded bytes (or fewer if shorter) and reject when the count
exceeds 30 % of the inspected window; otherwise decode UTF-8 with the
never-failing single-byte fallback, normalize CRLF and lone CR to LF, trim,
and reject an empty result. -/
def payload_decoder_spec (raw : List Char) : Option (List Char) :=
  let stripped := raw.filter (fun c => !isPySpace c)
  if stripped.isEmpty then none
  else if stripped.any (fun c => 128 ≤ c.toNat) then none
  else
    match b64decodeStrict (stripped.map Char.toNat) with
    | none => none
    | some bytes =>
      if bytes.isEmpty then none
      else
        let window := bytes.take 64
        let control := window.countP (fun b => b = 0 ∨ b < 9 ∨ (14 ≤ b ∧ b ≤ 31))
        if 100 * control > 30 * window.length then none
        else
          let text :=
            match utf8Decode bytes with
            | some s => s
            | none => latin1Decode bytes
          let trimmed := pyStrip (replaceCR (replaceCRLF text))
          if trimmed.isEmpty then none else some trimmed

/-- The amended C2 contract: identical to `payload_decoder_spec` except that
the base64 step validates as CPython's strict mode actually does
(`b64decodePy`), tolerating excess trailing padding after a complete
four-character group instead of enforcing fully strict padding. -/
def payload_decoder_py_spec (raw : List Char) : Option (List Char) :=
  let stripped := raw.filter (fun c => !isPySpace c)
  if stripped.isEmpty then none
  else if stripped.any (fun c => 128 ≤ c.toNat) then none
  else
    match b64decodePy (stripped.map Char.toNat) with
    | none => none
    | some bytes =>
      if bytes.isEmpty then none
      else
        let window := bytes.take 64
        let control := window.countP (fun b => b = 0 ∨ b < 9 ∨ (14 ≤ b ∧ b ≤ 31))
        if 100 * control > 30 * window.length then none
        else
          let text :=
            match utf8Decode bytes with
            | some s => s
            | none => latin1Decode bytes
          let trimmed := pyStrip (replaceCR (replaceCRLF text))
          if trimmed.isEmpty then none else some trimmed

/-- Splitting on line-feed separators only, as claim C5's words state
("split into lines on line-feed boundaries"). -/
def splitOnLF : List Char → List (List Char)
  | [] => [[]]
  | c :: rest =>
    if c = '\n' then [] :: splitOnLF rest
    else
      match splitOnLF rest with
      | l :: ls => (c :: l) :: ls
      | [] => [[c]]

/-- The Text Normalizer exactly as claim C5 words it: split on line-feed
boundaries only, drop empty or all-whitespace lines, rejoin with a single
line feed. -/
def remove_empty_lines_lf_only (text : List Char) : List Char :=
  joinNL ((splitOnLF text).filter (fun line => !is_empty_line line))

/-- A printable character in the sense of claim C7's round-trip property:
printable ASCII (code points 32–126). -/
def isPrintableChar (c : Char) : Bool := 32 ≤ c.toNat && c.toNat ≤ 126

/-- Base64-encoding a text, modelling
`base64.b64encode(text.encode("ascii"))` viewed as a string. -/
def b64encodeText (text : List Char) : List Char :=
  (b64encode (text.map Char.toNat)).map Char.ofNat

/-- The statistics effect claimed for `process_single_file` by the amended
claim C8: `total_files` always bumps by one, and each decision updates
exactly its own counters — `skipped_files` plus `skipped_by_ext` for
skip-by-extension, `skipped_files` plus `skipped_by_header` for
skip-by-header, the extraction counters plus `xml_files` plus
`processed_files` for markup, `processed_files` for plain text and
`skipped_files` alone for unhandled files. -/
def expected_stats (f : FileInput) (parsed : Option Elem) (stats : Stats) :
    Stats :=
  let stats := { stats with total_files := stats.total_files + 1 }
  match process_single_file_decision f with
  | ClassificationDecision.SkipExtension =>
    { stats with
      skipped_files := stats.skipped_files + 1
      skipped_by_ext := stats.skipped_by_ext + 1 }
  | ClassificationDecision.SkipHeader =>
    { stats with
      skipped_files := stats.skipped_files + 1
      skipped_by_header := stats.skipped_by_header + 1 }
  | ClassificationDecision.Markup =>
    let s1 := (extract_interesting_xml_fragments GLOBAL_BLOCKED_TAGS
      PER_EXTENSION_BLOCKED_TAGS parsed (load_xml_text f.content) f.ext stats).2
    { s1 with
      xml_files := s1.xml_files + 1
      processed_files := s1.processed_files + 1 }
  | ClassificationDecision.PlainText =>
    { stats with processed_files := stats.processed_files + 1 }
  | ClassificationDecision.SkipUnhandled =>
    { stats with skipped_files := stats.skipped_files + 1 }

/-- Pointwise order on the statistics counters ("counters only increase"). -/
def statsLe (s1 s2 : Stats) : Prop :=
  s1.total_files ≤ s2.total_files ∧
  s1.processed_files ≤ s2.processed_files ∧
  s1.skipped_files ≤ s2.skipped_files ∧
  s1.skipped_by_ext ≤ s2.skipped_by_ext ∧
  s1.skipped_by_header ≤ s2.skipped_by_header ∧
  s1.xml_files ≤ s2.xml_files ∧
  s1.rawitemdata_text ≤ s2.rawitemdata_text ∧
  s1.rawitemdata_binary_or_failed ≤ s2.rawitemdata_binary_or_failed ∧
  s1.java_lines ≤ s2.java_lines

/-! ### Helper lemmas: stripping and newline replacement -/

theorem head?_dropWhile_not {α : Type} (p : α → Bool) :
    ∀ (l : List α) (c : α), (l.dropWhile p).head? = some c → p c = false := by
  intro l
  induction l with
  | nil => intro c h; simp [List.dropWhile] at h
  | cons x xs ih =>
    intro c h
    by_cases hx : p x
    · rw [List.dropWhile_cons_of_pos hx] at h
      exact ih c h
    · rw [List.dropWhile_cons_of_neg hx] at h
      simp only [List.head?_cons, Option.some.injEq] at h
      rw [← h]
      exact Bool.eq_false_iff.mpr hx

theorem pyStrip_getLast_not_space (l : List Char) (c : Char)
    (h : (pyStrip l).getLast? = some c) : isPySpace c = false := by
  unfold pyStrip at h
  rw [List.getLast?_reverse] at h
  exact head?_dropWhile_not isPySpace _ c h

theorem pyStrip_head_not_space (l : List Char) (c : Char)
    (h : (pyStrip l).head? = some c) : isPySpace c = false := by
  unfold pyStrip at h
  obtain ⟨u, hu⟩ := List.dropWhile_suffix
    (l := (l.dropWhile isPySpace).reverse) isPySpace
  set d := (l.dropWhile isPySpace).reverse.dropWhile isPySpace with hd
  have hdne : d ≠ [] := by
    intro he
    rw [he] at h
    simp at h
  have h2 : d.getLast? = some c := by
    rw [← List.head?_reverse]
    exact h
  have h3 : (l.dropWhile isPySpace).reverse.getLast? = some c := by
    rw [← hu, List.getLast?_append_of_ne_nil u hdne]
    exact h2
  rw [List.getLast?_reverse] at h3
  exact head?_dropWhile_not isPySpace _ c h3

theorem mem_pyStrip (l : List Char) (c : Char) (h : c ∈ pyStrip l) : c ∈ l := by
  unfold pyStrip at h
  rw [List.mem_reverse] at h
  have h2 := (List.dropWhile_suffix (l := (l.dropWhile isPySpace).reverse)
    isPySpace).subset h
  rw [List.mem_reverse] at h2
  exact (List.dropWhile_suffix (l := l) isPySpace).subset h2

theorem replaceCR_not_CR (l : List Char) : '\r' ∉ replaceCR l := by
  unfold replaceCR
  intro h
  obtain ⟨a, _, ha⟩ := List.mem_map.mp h
  by_cases hc : a = '\r' <;> simp [hc] at ha

theorem replaceCRLF_no_CR (l : List Char) (h : '\r' ∉ l) : replaceCRLF l = l := by
  induction l using replaceCRLF.induct with
  | case1 rest ih =>
    exact absurd (by simp) h
  | case2 c rest hne ih =>
    simp only [List.mem_cons, not_or] at h
    unfold replaceCRLF
    split
    · rename_i rest2 heq
      injection heq with h1 h2
      exact absurd h1 (fun he => h.1 he.symm)
    · rename_i c2 rest2 hne2 heq
      injection heq with h1 h2
      rw [← h1, ← h2, ih h.2]
    · rename_i heq
      exact absurd heq (by simp)
  | case3 => rfl

theorem replaceCR_no_CR (l : List Char) (h : '\r' ∉ l) : replaceCR l = l := by
  unfold replaceCR
  conv_rhs => rw [← List.map_id l]
  apply List.map_congr_left
  intro c hc
  have hcc : ¬ c = '\r' := fun he => h (he ▸ hc)
  simp [hcc]

/-! ### Helper lemmas: splitlines -/

theorem splitlinesAux_no_break (s : List Char) (acc : List Char) :
    (∀ c ∈ acc, isLineBreakChar c = false) →
    ∀ l ∈ splitlinesAux s acc, ∀ c ∈ l, isLineBreakChar c = false := by
  induction s, acc using splitlinesAux.induct with
  | case1 acc hemp =>
    intro hacc l hl
    unfold splitlinesAux at hl
    rw [if_pos hemp] at hl
    simp at hl
  | case2 acc hemp =>
    intro hacc l hl c hc
    unfold splitlinesAux at hl
    rw [if_neg hemp] at hl
    simp at hl
    rw [hl] at hc
    exact hacc c (List.mem_reverse.mp hc)
  | case3 ch acc hbr =>
    intro hacc l hl c hc
    unfold splitlinesAux at hl
    rw [if_pos hbr] at hl
    simp at hl
    rw [hl] at hc
    exact hacc c (List.mem_reverse.mp hc)
  | case4 ch acc hbr =>
    intro hacc l hl c hc
    unfold splitlinesAux at hl
    rw [if_neg hbr] at hl
    simp at hl
    rw [hl] at hc
    rcases List.mem_append.mp hc with h1 | h2
    · exact hacc c (List.mem_reverse.mp h1)
    · rw [List.mem_singleton.mp h2]
      exact Bool.eq_false_iff.mpr hbr
  | case5 c1 c2 rest acc hcr ih =>
    intro hacc l hl c hc
    unfold splitlinesAux at hl
    rw [if_pos hcr] at hl
    rcases List.mem_cons.mp hl with h1 | h2
    · rw [h1] at hc
      exact hacc c (List.mem_reverse.mp hc)
    · exact ih (by intro x hx; simp at hx) l h2 c hc
  | case6 c1 c2 rest acc hcr hbr ih =>
    intro hacc l hl c hc
    unfold splitlinesAux at hl
    rw [if_neg hcr, if_pos hbr] at hl
    rcases List.mem_cons.mp hl with h1 | h2
    · rw [h1] at hc
      exact hacc c (List.mem_reverse.mp hc)
    · exact ih (by intro x hx; simp at hx) l h2 c hc
  | case7 c1 c2 rest acc hcr hbr ih =>
    intro hacc l hl c hc
    unfold splitlinesAux at hl
    rw [if_neg hcr, if_neg hbr] at hl
    refine ih ?_ l hl c hc
    intro x hx
    rcases List.mem_cons.mp hx with h1 | h2
    · rw [h1]; exact Bool.eq_false_iff.mpr hbr
    · exact hacc x h2

theorem splitlines_no_break (t : List Char) :
    ∀ l ∈ splitlines t, ∀ c ∈ l, isLineBreakChar c = false :=
  splitlinesAux_no_break t [] (by intro c hc; simp at hc)

theorem splitlinesAux_append (l : List Char) :
    ∀ (s acc : List Char), (∀ c ∈ l, isLineBreakChar c = false) →
    splitlinesAux (l ++ s) acc = splitlinesAux s (l.reverse ++ acc) := by
  induction l with
  | nil => intro s acc _; simp
  | cons x l ih =>
    intro s acc hl
    have hx : isLineBreakChar x = false := hl x (by simp)
    have hxne : ¬ isLineBreakChar x = true := Bool.eq_false_iff.mp hx
    have hl2 : ∀ c ∈ l, isLineBreakChar c = false :=
      fun c hc => hl c (List.mem_cons_of_mem x hc)
    have hx13 : ¬ x.toNat = 13 := by
      intro he
      have h13 : isLineBreakChar x = true := by
        unfold isLineBreakChar
        simp [he]
      rw [h13] at hx; exact Bool.noConfusion hx
    cases hls : l ++ s with
    | nil =>
      have hlnil : l = [] := (List.append_eq_nil.mp hls).1
      have hsnil : s = [] := (List.append_eq_nil.mp hls).2
      subst hlnil; subst hsnil
      show splitlinesAux [x] acc = splitlinesAux [] (List.reverse [x] ++ acc)
      unfold splitlinesAux
      rw [if_neg hxne]
      simp
    | cons y t =>
      show splitlinesAux (x :: (l ++ s)) acc = _
      rw [hls]
      conv_lhs => simp only [splitlinesAux]
      rw [if_neg (by intro hand; exact hx13 hand.1)]
      rw [if_neg hxne]
      rw [← hls, ih s (x :: acc) hl2]
      congr 1
      simp

theorem splitlinesAux_newline (s acc : List Char) :
    splitlinesAux ('\n' :: s) acc = acc.reverse :: splitlinesAux s [] := by
  cases s with
  | nil =>
    conv_lhs => simp only [splitlinesAux]
    rw [if_pos (by decide)]
    simp [splitlinesAux]
  | cons y t =>
    conv_lhs => simp only [splitlinesAux]
    rw [if_neg (fun hand => absurd hand.1 (by decide))]
    rw [if_pos (by decide)]

theorem splitlines_joinNL (ls : List (List Char))
    (h : ∀ l ∈ ls, l ≠ [] ∧ ∀ c ∈ l, isLineBreakChar c = false) :
    splitlines (joinNL ls) = ls := by
  induction ls with
  | nil => rfl
  | cons l ls ih =>
    obtain ⟨hne, hnb⟩ := h l (by simp)
    cases ls with
    | nil =>
      show splitlines (joinNL [l]) = [l]
      unfold joinNL splitlines
      rw [show l = l ++ [] by simp, splitlinesAux_append l [] [] (by simpa using hnb)]
      unfold splitlinesAux
      rw [if_neg (by simpa using hne)]
      simp
    | cons l2 ls2 =>
      show splitlines (l ++ '\n' :: joinNL (l2 :: ls2)) = l :: l2 :: ls2
      unfold splitlines
      rw [splitlinesAux_append l ('\n' :: joinNL (l2 :: ls2)) [] hnb]
      rw [splitlinesAux_newline]
      simp only [List.append_nil, List.reverse_reverse]
      rw [show splitlinesAux (joinNL (l2 :: ls2)) [] = splitlines (joinNL (l2 :: ls2)) from rfl]
      rw [ih (fun x hx => h x (List.mem_cons_of_mem l hx))]

/-- The two properties every line kept by the normalizer's filter has:
it is non-empty and free of line-boundary characters. -/
theorem kept_lines_good (t : List Char) :
    ∀ l ∈ (splitlines t).filter (fun line => !is_empty_line line),
      l ≠ [] ∧ ∀ c ∈ l, isLineBreakChar c = false := by
  intro l hl
  obtain ⟨hmem, hkeep⟩ := List.mem_filter.mp hl
  constructor
  · intro he
    rw [he] at hkeep
    simp [is_empty_line, pyStrip] at hkeep
  · exact splitlines_no_break t l hmem

/-- Re-splitting the normalizer's output recovers exactly the kept lines. -/
theorem splitlines_remove_empty (t : List Char) :
    splitlines (remove_empty_lines_normalized t) =
      (splitlines t).filter (fun line => !is_empty_line line) := by
  unfold remove_empty_lines_normalized
  exact splitlines_joinNL _ (kept_lines_good t)

/-! ### Helper lemmas: base64 -/

theorem decodeB64_encodeB64 : ∀ v, v < 64 → decodeB64Digit (encodeB64Digit v) = some v := by
  decide

theorem encodeB64Digit_ne_pad : ∀ v, v < 64 → encodeB64Digit v ≠ 61 := by
  decide

theorem encodeB64Digit_range (v : Nat) :
    43 ≤ encodeB64Digit v ∧ encodeB64Digit v ≤ 122 := by
  unfold encodeB64Digit
  split_ifs <;> omega

theorem b64encode_mem_range : ∀ (bs : List Nat), ∀ e ∈ b64encode bs,
    43 ≤ e ∧ e ≤ 122 := by
  intro bs
  induction bs using b64encode.induct with
  | case1 a b c rest ih =>
    intro e he
    simp only [b64encode, List.mem_cons] at he
    rcases he with h | h | h | h | h
    · rw [h]; exact encodeB64Digit_range _
    · rw [h]; exact encodeB64Digit_range _
    · rw [h]; exact encodeB64Digit_range _
    · rw [h]; exact encodeB64Digit_range _
    · exact ih e h
  | case2 a b =>
    intro e he
    simp only [b64encode, List.mem_cons] at he
    rcases he with h | h | h | h | h
    · rw [h]; exact encodeB64Digit_range _
    · rw [h]; exact encodeB64Digit_range _
    · rw [h]; exact encodeB64Digit_range _
    · rw [h]; omega
    · simp at h
  | case3 a =>
    intro e he
    simp only [b64encode, List.mem_cons] at he
    rcases he with h | h | h | h | h
    · rw [h]; exact encodeB64Digit_range _
    · rw [h]; exact encodeB64Digit_range _
    · rw [h]; omega
    · rw [h]; omega
    · simp at h
  | case4 =>
    intro e he
    simp [b64encode] at he

theorem b64encode_ne_nil (bs : List Nat) (h : bs ≠ []) : b64encode bs ≠ [] := by
  match bs with
  | [] => exact absurd rfl h
  | [a] => simp [b64encode]
  | [a, b] => simp [b64encode]
  | a :: b :: c :: rest => simp [b64encode]

theorem b64decodePyAux_b64encode : ∀ (bs : List Nat), (∀ x ∈ bs, x < 256) →
    b64decodePyAux (b64encode bs) = some bs := by
  intro bs
  induction bs using b64encode.induct with
  | case1 a b c rest ih =>
    intro h
    have ha : a < 256 := h a (by simp)
    have hb : b < 256 := h b (by simp)
    have hc : c < 256 := h c (by simp)
    have h1 : a / 4 < 64 := by omega
    have h2 : (a % 4) * 16 + b / 16 < 64 := by omega
    have h3 : (b % 16) * 4 + c / 64 < 64 := by omega
    have h4 : c % 64 < 64 := by omega
    have hne1 := encodeB64Digit_ne_pad _ h1
    have hne3 := encodeB64Digit_ne_pad _ h3
    have hne4 := encodeB64Digit_ne_pad _ h4
    have hrec := ih (fun x hx => h x (by simp [hx]))
    show b64decodePyAux (encodeB64Digit (a / 4) :: encodeB64Digit ((a % 4) * 16 + b / 16) ::
      encodeB64Digit ((b % 16) * 4 + c / 64) :: encodeB64Digit (c % 64) :: b64encode rest) = _
    unfold b64decodePyAux
    rw [if_neg hne1]
    dsimp only
    rw [decodeB64_encodeB64 _ h1, decodeB64_encodeB64 _ h2]
    simp only [decodeB64_encodeB64 _ h3, decodeB64_encodeB64 _ h4, hne3, hne4,
      if_false, ite_false, hrec, Option.map_some, Option.map_some', Option.some.injEq,
      List.cons.injEq]
    exact ⟨by omega, by omega, by omega, trivial⟩
  | case2 a b =>
    intro h
    have ha : a < 256 := h a (by simp)
    have hb : b < 256 := h b (by simp)
    have h1 : a / 4 < 64 := by omega
    have h2 : (a % 4) * 16 + b / 16 < 64 := by omega
    have h3 : (b % 16) * 4 < 64 := by omega
    have hne1 := encodeB64Digit_ne_pad _ h1
    have hne3 := encodeB64Digit_ne_pad _ h3
    show b64decodePyAux [encodeB64Digit (a / 4), encodeB64Digit ((a % 4) * 16 + b / 16),
      encodeB64Digit ((b % 16) * 4), 61] = _
    unfold b64decodePyAux
    rw [if_neg hne1]
    dsimp only
    rw [decodeB64_encodeB64 _ h1, decodeB64_encodeB64 _ h2]
    simp only [decodeB64_encodeB64 _ h3, hne3, if_false, ite_false, if_true, ite_true,
      List.isEmpty_nil, Option.some.injEq, List.cons.injEq]
    exact ⟨by omega, by omega, trivial⟩
  | case3 a =>
    intro h
    have ha : a < 256 := h a (by simp)
    have h1 : a / 4 < 64 := by omega
    have h2 : (a % 4) * 16 < 64 := by omega
    have hne1 := encodeB64Digit_ne_pad _ h1
    show b64decodePyAux [encodeB64Digit (a / 4), encodeB64Digit ((a % 4) * 16), 61, 61] = _
    unfold b64decodePyAux
    rw [if_neg hne1]
    dsimp only
    rw [decodeB64_encodeB64 _ h1, decodeB64_encodeB64 _ h2]
    simp only [if_true, ite_true, List.isEmpty_nil, Bool.and_true, decide_eq_true_eq,
      Option.some.injEq, List.cons.injEq]
    exact ⟨by omega, trivial⟩
  | case4 =>
    intro _
    rfl

theorem b64encode_head (a : Nat) (l : List Nat) :
    ∃ t, b64encode (a :: l) = encodeB64Digit (a / 4) :: t := by
  match l with
  | [] => exact ⟨_, rfl⟩
  | [b] => exact ⟨_, rfl⟩
  | b :: c :: rest => exact ⟨_, rfl⟩

theorem b64decodePy_b64encode : ∀ (bs : List Nat), (∀ x ∈ bs, x < 256) →
    b64decodePy (b64encode bs) = some bs := by
  intro bs h
  cases bs with
  | nil => rfl
  | cons a l =>
    obtain ⟨t, ht⟩ := b64encode_head a l
    have ha : a < 256 := h a (by simp)
    have h1 : a / 4 < 64 := by omega
    have hne := encodeB64Digit_ne_pad _ h1
    rw [ht]
    unfold b64decodePy
    dsimp only
    rw [if_neg hne, ← ht]
    exact b64decodePyAux_b64encode (a :: l) h

/-! ### Helper lemmas: UTF-8 on ASCII and printable characters -/

theorem utf8Decode_ascii : ∀ (bs : List Nat), (∀ x ∈ bs, x < 128) →
    utf8Decode bs = some (bs.map Char.ofNat) := by
  intro bs
  induction bs with
  | nil => intro _; rfl
  | cons b rest ih =>
    intro h
    have hb : b < 128 := h b (by simp)
    rw [utf8Decode.eq_2]
    rw [if_pos hb, ih (fun x hx => h x (List.mem_cons_of_mem _ hx))]
    rfl

theorem toNat_ofNat_small (n : Nat) (h : n < 55296) : (Char.ofNat n).toNat = n := by
  unfold Char.ofNat
  rw [dif_pos (Or.inl h)]
  rfl

theorem map_ofNat_toNat (l : List Char) : (l.map Char.toNat).map Char.ofNat = l := by
  rw [List.map_map]
  conv_rhs => rw [← List.map_id l]
  apply List.map_congr_left
  intro c _
  exact Char.ofNat_toNat c

/-! ### Helper lemmas: statistics monotonicity -/

theorem statsLe_refl (s : Stats) : statsLe s s := by
  unfold statsLe
  omega

theorem statsLe_trans {s1 s2 s3 : Stats} (h1 : statsLe s1 s2)
    (h2 : statsLe s2 s3) : statsLe s1 s3 := by
  unfold statsLe at h1 h2 ⊢
  omega

theorem walkSelf_statsLe (gbl : List (List Char))
    (perExt : List (List Char × List (List Char))) (file_ext : List Char)
    (localTag : List Char) (text : Option (List Char)) (stats : Stats) :
    statsLe stats (walkSelf gbl perExt file_ext localTag text stats).2 := by
  unfold walkSelf
  simp only [statsLe]
  repeat' split
  all_goals dsimp only
  all_goals omega

mutual

theorem walk_statsLe (gbl : List (List Char))
    (perExt : List (List Char × List (List Char))) (file_ext : List Char) :
    ∀ (e : Elem) (ps : List (List Char)) (stats : Stats),
    statsLe stats (walk gbl perExt file_ext e ps stats).2
  | Elem.mk tag text children, ps, stats => by
    rw [walk]
    exact statsLe_trans (walkSelf_statsLe gbl perExt file_ext _ text stats)
      (walkList_statsLe gbl perExt file_ext children _ _)

theorem walkList_statsLe (gbl : List (List Char))
    (perExt : List (List Char × List (List Char))) (file_ext : List Char) :
    ∀ (es : List Elem) (ps : List (List Char)) (stats : Stats),
    statsLe stats (walkList gbl perExt file_ext es ps stats).2
  | [], _, stats => statsLe_refl stats
  | e :: rest, ps, stats => by
    rw [walkList]
    exact statsLe_trans (walk_statsLe gbl perExt file_ext e ps stats)
      (walkList_statsLe gbl perExt file_ext rest ps _)

end

theorem extract_statsLe (gbl : List (List Char))
    (perExt : List (List Char × List (List Char))) (parsed : Option Elem)
    (xml_text : List Char) (file_ext : List Char) (stats : Stats) :
    statsLe stats (extract_interesting_xml_fragments gbl perExt parsed
      xml_text file_ext stats).2 := by
  unfold extract_interesting_xml_fragments
  match parsed with
  | none => exact statsLe_refl stats
  | some root =>
    dsimp only
    split
    · exact walk_statsLe gbl perExt file_ext root [] stats
    · exact walk_statsLe gbl perExt file_ext root [] stats

/-! ### Helper lemmas: classification -/

theorem should_skip_by_header_eq (content : List Nat) :
    should_skip_by_header content =
      IGNORE_MAGIC_PREFIXES.any
        (fun sig => hasStart (content.take magicReadLen) sig) := by
  unfold should_skip_by_header read_header starts_with_any
  dsimp only
  split
  · rename_i hemp
    rw [List.isEmpty_iff] at hemp
    rw [hemp]
    decide
  · rfl

theorem is_probably_xml_eq (ext : List Char) (content : List Nat) :
    is_probably_xml ext content =
      (decide (pyLower ext ∈ ZNANE_XML_DATOTEKE) ||
        hasStart (pyLstrip (utf8DecodeIgnore (content.take 128))) "<?xml".toList ||
        hasStart (pyLstrip (utf8DecodeIgnore (content.take 128))) "<".toList) := by
  unfold is_probably_xml
  split
  · rename_i hmem
    simp [hmem]
  · rename_i hmem
    simp [hmem]

/-! ### Helper lemmas: per-file statistics -/

theorem process_single_file_eq_expected (f : FileInput) (parsed : Option Elem)
    (stats : Stats) :
    process_single_file f parsed stats = expected_stats f parsed stats := by
  unfold process_single_file expected_stats process_single_file_decision
    process_xml_file
  split_ifs <;> rfl

theorem process_single_file_statsLe (f : FileInput) (parsed : Option Elem)
    (stats : Stats) : statsLe stats (process_single_file f parsed stats) := by
  unfold process_single_file
  split_ifs
  · simp only [statsLe]; try dsimp only
    omega
  · simp only [statsLe]; try dsimp only
    omega
  · unfold process_xml_file
    try dsimp only
    have h := extract_statsLe GLOBAL_BLOCKED_TAGS PER_EXTENSION_BLOCKED_TAGS
      parsed (load_xml_text f.content) f.ext
      { stats with total_files := stats.total_files + 1 }
    simp only [statsLe] at h ⊢
    try dsimp only at h ⊢
    omega
  · unfold process_plain_text_file
    try dsimp only
    simp only [statsLe]
    try dsimp only
    omega
  · simp only [statsLe]; try dsimp only
    omega

/-! ## Claim theorems -/

/-- Claim C1: for every input file, classification produces exactly one
decision, evaluated in the fixed priority order with first match winning:
(1) lowercased extension in the ignored-extension set yields
skip-by-extension; (2) otherwise a header matching a binary magic signature
yields skip-by-header; (3) otherwise a file judged probably-markup (known
markup extension, or first 128 bytes permissively decoded and left-trimmed
starting with `<?xml` or `<`) is processed as markup; (4) otherwise an
extension in the always-plain-text set is processed as plain text;
(5) otherwise the file is skipped as unhandled.  Formally: the source's
decision function (a total function into the five-valued decision type)
coincides with the spec's priority-ordered classifier on every file. -/
theorem C1_classifier_priority_order (f : FileInput) :
    process_single_file_decision f = classifier_spec_decision f := by
  unfold process_single_file_decision classifier_spec_decision
    should_skip_by_extension
  rw [should_skip_by_header_eq, is_probably_xml_eq]
  simp only [decide_eq_true_eq, Bool.or_eq_true, or_assoc]

/-- Counterexample to claim C2 as stated: `aGkx==` carries excess padding
after the complete four-character group `aGkx`, so under the claimed
fully-strict base64 validation it is an invalid encoding and must yield no
output — but the program's decoder (CPython's `b64decode(validate=True)`,
which is `a2b_base64` strict mode and tolerates excess trailing padding)
decodes it and outputs `hi1`. -/
theorem C2_counterexample :
    decode_rawitemdata_base64 "aGkx==".toList = some "hi1".toList ∧
    payload_decoder_spec "aGkx==".toList = none ∧
    decode_rawitemdata_base64 "aGkx==".toList ≠
      payload_decoder_spec "aGkx==".toList := by
  refine ⟨by decide, by decide, ?_⟩
  decide

/-- Claim C2 as amended: the Payload Decoder, given a raw string fragment,
first strips all whitespace and returns no output if the result is empty;
decodes as base64 in CPython's strict mode — alphabet validation, padding
only as a trailing run, a final two-digit group closed by exactly two pads
and a final three-digit group by exactly one, but any number of excess
trailing pads tolerated after a complete four-character group — with
invalid encodings and an empty decoded byte sequence yielding no output;
then, counting in the first 64 decoded bytes (or fewer if shorter) the
bytes that are null, below 9, or in 14-31 inclusive, it returns no output
if that count exceeds 30 % of the inspected window; otherwise it decodes
the full bytes as UTF-8 with a never-failing single-byte fallback,
normalizes CRLF and lone CR to LF, trims, and returns no output exactly
when the trimmed result is empty.  Formally: the source decoder coincides
with the decoder written from the amended words on every input. -/
theorem C2_amended_payload_decoder (raw : List Char) :
    decode_rawitemdata_base64 raw = payload_decoder_py_spec raw := by
  unfold decode_rawitemdata_base64 payload_decoder_py_spec
  dsimp only
  split_ifs with h1 h2
  · rfl
  · rfl
  · cases hb : b64decodePy ((List.filter (fun c => !isPySpace c) raw).map
      Char.toNat) with
    | none => rfl
    | some decoded =>
      dsimp only
      by_cases h3 : decoded.isEmpty = true
      · rw [if_pos h3, if_pos h3]
      · have hpred : (fun b => decide (b = 0 ∨ b < 9 ∨ (14 ≤ b ∧ b < 32))) =
            (fun b : Nat => decide (b = 0 ∨ b < 9 ∨ (14 ≤ b ∧ b ≤ 31))) := by
          funext b
          exact decide_eq_decide.mpr (by omega)
        have hne : (decoded.take 64).isEmpty = false := by
          cases decoded with
          | nil => simp at h3
          | cons d ds => simp [List.take]
        have hiff : (¬(decoded.take 64).isEmpty = true ∧
            10 * (decoded.take 64).countP
              (fun b => decide (b = 0 ∨ b < 9 ∨ (14 ≤ b ∧ b < 32))) >
              3 * (decoded.take 64).length) ↔
            (100 * (decoded.take 64).countP
              (fun b : Nat => decide (b = 0 ∨ b < 9 ∨ (14 ≤ b ∧ b ≤ 31))) >
              30 * (decoded.take 64).length) := by
          rw [hpred, hne]
          simp only [Bool.false_eq_true, not_false_iff, true_and]
          constructor <;> intro hx <;> omega
        rw [if_neg h3, if_neg h3]
        exact if_congr hiff rfl rfl

/-- Claim C3: during extraction from a successfully parsed markup tree, every
element whose local (namespace-stripped) tag name is blocked globally or for
the file's extension contributes no text to the fragment list — even when
that tag name is also in the interesting-tag set — yet all of its children
are still visited: walking a blocked element is exactly walking its child
list (with the element's local tag pushed on the path stack), with the same
fragments and the same statistics. -/
theorem C3_blocked_tag_skipped_children_visited (gbl : List (List Char))
    (perExt : List (List Char × List (List Char))) (file_ext : List Char)
    (tag : List Char) (text : Option (List Char)) (children : List Elem)
    (ps : List (List Char)) (stats : Stats)
    (h : is_blocked_tag gbl perExt (get_local_tag tag) file_ext = true) :
    walk gbl perExt file_ext (Elem.mk tag text children) ps stats =
      walkList gbl perExt file_ext children (ps ++ [get_local_tag tag]) stats := by
  rw [walk]
  have hself : walkSelf gbl perExt file_ext (get_local_tag tag) text stats =
      ([], stats) := by
    unfold walkSelf
    rw [if_neg]
    intro hand
    rw [h] at hand
    exact Bool.noConfusion hand.1
  rw [hself]
  simp

/-- Witness for C3: the configuration blocking `lotusscript` (which is in the
interesting-tag set) on a `lotusscript` element with text and one child. -/
theorem C3_witness :
    is_blocked_tag ["lotusscript".toList] []
      (get_local_tag "lotusscript".toList) ".form".toList = true ∧
    "lotusscript".toList ∈ INTERESTING_XML_TAGS ∧
    walk ["lotusscript".toList] [] ".form".toList
      (Elem.mk "lotusscript".toList (some "Dim x".toList)
        [Elem.mk "formula".toList (some "@Now".toList) []]) [] init_stats =
    walkList ["lotusscript".toList] [] ".form".toList
      [Elem.mk "formula".toList (some "@Now".toList) []]
      ([] ++ [get_local_tag "lotusscript".toList]) init_stats :=
  ⟨by decide, by decide,
    C3_blocked_tag_skipped_children_visited ["lotusscript".toList] []
      ".form".toList "lotusscript".toList (some "Dim x".toList)
      [Elem.mk "formula".toList (some "@Now".toList) []] [] init_stats
      (by decide)⟩

/-- Claim C4: when markup parsing fails (the external parser yields no tree),
the Markup Fragment Extractor returns the original input text unchanged,
collects zero fragments, updates no statistics counters of its own, and
propagates no parse error (it is a total function).  Formally: extraction
with a failed parse returns the pair of the original text and the untouched
statistics, for every configuration, text, extension and statistics. -/
theorem C4_parse_failure_returns_original (gbl : List (List Char))
    (perExt : List (List Char × List (List Char))) (xml_text : List Char)
    (file_ext : List Char) (stats : Stats) :
    extract_interesting_xml_fragments gbl perExt none xml_text file_ext stats =
      (xml_text, stats) := rfl

/-- Counterexample to claim C5 as stated: on the input `a CR b` the source
normalizer (which uses universal-newline splitting) differs from a
normalizer that splits on line-feed boundaries only, as the claim words it:
the code turns the carriage return into a line feed, the claim's version
returns the text unchanged. -/
theorem C5_counterexample :
    remove_empty_lines_normalized ['a', Char.ofNat 13, 'b'] =
      ['a', Char.ofNat 10, 'b'] ∧
    remove_empty_lines_lf_only ['a', Char.ofNat 13, 'b'] =
      ['a', Char.ofNat 13, 'b'] ∧
    remove_empty_lines_normalized ['a', Char.ofNat 13, 'b'] ≠
      remove_empty_lines_lf_only ['a', Char.ofNat 13, 'b'] := by
  refine ⟨by decide, by decide, ?_⟩
  decide

/-- Claim C5 as amended: the Text Normalizer splits its input on all line
boundaries recognized by Python universal-newline splitting (line feed,
carriage return, CRLF as one boundary, and the other vertical-whitespace
boundaries) — not on line-feed boundaries only — drops exactly the lines
that are empty or entirely whitespace, and rejoins the kept lines, in their
original order, with single line-feed separators: re-splitting the output
yields exactly the kept lines of the input, in order. -/
theorem C5_amended_normalizer (t : List Char) :
    remove_empty_lines_normalized t =
      joinNL ((splitlines t).filter (fun line => !is_empty_line line)) ∧
    splitlines (remove_empty_lines_normalized t) =
      (splitlines t).filter (fun line => !is_empty_line line) :=
  ⟨rfl, splitlines_remove_empty t⟩

/-- Claim C6: the Text Normalizer is idempotent — applying it twice yields
the same result as applying it once, for every input text. -/
theorem C6_normalizer_idempotent (t : List Char) :
    remove_empty_lines_normalized (remove_empty_lines_normalized t) =
      remove_empty_lines_normalized t := by
  have h2 := splitlines_remove_empty t
  have h3 : ((splitlines t).filter (fun line => !is_empty_line line)).filter
      (fun line => !is_empty_line line) =
      (splitlines t).filter (fun line => !is_empty_line line) :=
    List.filter_eq_self.mpr (fun a ha => (List.mem_filter.mp ha).2)
  unfold remove_empty_lines_normalized at h2
  conv_lhs => unfold remove_empty_lines_normalized
  rw [h2, h3]
  rfl

/-- Every code point 43–122 maps to a non-whitespace character whose code
point round-trips; covers the whole base64 output alphabet including pad. -/
theorem b64char_good : ∀ e, e < 123 → 43 ≤ e →
    isPySpace (Char.ofNat e) = false ∧ (Char.ofNat e).toNat = e := by
  decide

/-- Counterexample to claim C7 as stated: the single-space text is printable,
but encoding it and passing the encoding through the Payload Decoder yields
no output, not the original text trimmed (which the claim, "returns the
original text up to normalization and trimming", would make the empty
string). -/
theorem C7_counterexample :
    [' '].all isPrintableChar = true ∧
    decode_rawitemdata_base64 (b64encodeText [' ']) ≠
      some (pyStrip (replaceCR (replaceCRLF [' ']))) := by
  refine ⟨by decide, ?_⟩
  decide

/-- Claim C7 as amended: for every printable text that is not entirely
whitespace, base64-encoding it and passing the encoding through the Payload
Decoder returns the original text up to trimming of leading and trailing
whitespace (printable text contains no carriage return, so the CRLF/CR
normalization is the identity on it). -/
theorem C7_amended_roundtrip (text : List Char)
    (hp : text.all isPrintableChar = true) (hne : pyStrip text ≠ []) :
    decode_rawitemdata_base64 (b64encodeText text) = some (pyStrip text) := by
  have hprint : ∀ c ∈ text, 32 ≤ c.toNat ∧ c.toNat ≤ 126 := by
    intro c hc
    have := List.all_eq_true.mp hp c hc
    unfold isPrintableChar at this
    simp at this
    omega
  have htne : text ≠ [] := by
    intro he
    rw [he] at hne
    exact hne rfl
  have hcodes : ∀ x ∈ text.map Char.toNat, 32 ≤ x ∧ x ≤ 126 := by
    intro x hx
    obtain ⟨c, hc, hcx⟩ := List.mem_map.mp hx
    rw [← hcx]
    exact hprint c hc
  have hmemenc : ∀ e ∈ b64encode (text.map Char.toNat), 43 ≤ e ∧ e ≤ 122 :=
    b64encode_mem_range _
  have hencText : b64encodeText text =
      (b64encode (text.map Char.toNat)).map Char.ofNat := rfl
  have hmemchars : ∀ c ∈ b64encodeText text,
      isPySpace c = false ∧ c.toNat < 128 := by
    intro c hc
    rw [hencText] at hc
    obtain ⟨e, he, hec⟩ := List.mem_map.mp hc
    obtain ⟨h1, h2⟩ := hmemenc e he
    obtain ⟨h3, h4⟩ := b64char_good e (by omega) h1
    rw [← hec]
    exact ⟨h3, by omega⟩
  have hfilter : List.filter (fun c => !isPySpace c) (b64encodeText text) =
      b64encodeText text := by
    apply List.filter_eq_self.mpr
    intro c hc
    rw [(hmemchars c hc).1]
    rfl
  have hencne : b64encodeText text ≠ [] := by
    rw [hencText]
    intro he
    exact b64encode_ne_nil (text.map Char.toNat) (by simp [htne]) (by
      simpa using he)
  have hanyascii : ((b64encodeText text).any fun c => decide (128 ≤ c.toNat)) =
      false := by
    rw [List.any_eq_false]
    intro c hc
    simp only [decide_eq_true_eq]
    have := (hmemchars c hc).2
    omega
  have hmapback : (b64encodeText text).map Char.toNat =
      b64encode (text.map Char.toNat) := by
    rw [hencText, List.map_map]
    conv_rhs => rw [← List.map_id (b64encode (text.map Char.toNat))]
    apply List.map_congr_left
    intro e he
    have hr := hmemenc e he
    exact (b64char_good e (by omega) hr.1).2
  have hdec : b64decodePy ((b64encodeText text).map Char.toNat) =
      some (text.map Char.toNat) := by
    rw [hmapback]
    exact b64decodePy_b64encode _ (fun x hx => by
      have := hcodes x hx
      omega)
  have hcodesne : (text.map Char.toNat).isEmpty = false := by
    cases text with
    | nil => exact absurd rfl htne
    | cons c cs => rfl
  have hcount : ((text.map Char.toNat).take 64).countP
      (fun b => decide (b = 0 ∨ b < 9 ∨ (14 ≤ b ∧ b < 32))) = 0 := by
    rw [List.countP_eq_zero]
    intro b hb
    have hbm := List.take_subset 64 (text.map Char.toNat) hb
    have := hcodes b hbm
    simp only [decide_eq_true_eq]
    omega
  have hutf : utf8Decode (text.map Char.toNat) = some text := by
    rw [utf8Decode_ascii (text.map Char.toNat) (fun x hx => by
      have := hcodes x hx
      omega)]
    rw [map_ofNat_toNat]
  have hnocr : '\r' ∉ text := by
    intro hc
    have := hprint _ hc
    have h13 : ('\r').toNat = 13 := rfl
    omega
  have hrepl : replaceCR (replaceCRLF text) = text := by
    rw [replaceCRLF_no_CR text hnocr, replaceCR_no_CR text hnocr]
  unfold decode_rawitemdata_base64
  dsimp only
  rw [hfilter]
  rw [if_neg (by simp [hencne])]
  rw [hanyascii]
  rw [if_neg (by simp)]
  rw [hdec]
  dsimp only
  rw [if_neg (by simp [hcodesne])]
  rw [if_neg (by
    rw [hcount]
    intro hand
    omega)]
  rw [hutf]
  dsimp only
  rw [hrepl]
  rw [if_neg (by simp [hne])]

/-- Witness for the amended C7: the printable text `Sub Foo` round-trips
through base64 encoding and the Payload Decoder. -/
theorem C7_witness :
    "Sub Foo".toList.all isPrintableChar = true ∧
    pyStrip "Sub Foo".toList ≠ [] ∧
    decode_rawitemdata_base64 (b64encodeText "Sub Foo".toList) =
      some (pyStrip "Sub Foo".toList) :=
  ⟨by decide, by decide,
    C7_amended_roundtrip "Sub Foo".toList (by decide) (by decide)⟩

/-- Counterexample to claim C8 as stated ("each classification decision
increments exactly one corresponding statistics counter"): processing a
`.png` file increments two counters besides the total-files counter —
both the aggregate skipped counter and the by-extension sub-counter move
from 0 to 1. -/
theorem C8_counterexample :
    (process_single_file ⟨".png".toList, []⟩ none init_stats).total_files = 1 ∧
    (process_single_file ⟨".png".toList, []⟩ none init_stats).skipped_files = 1 ∧
    (process_single_file ⟨".png".toList, []⟩ none init_stats).skipped_by_ext = 1 ∧
    init_stats.skipped_files = 0 ∧ init_stats.skipped_by_ext = 0 := by
  refine ⟨?_, ?_, ?_, rfl, rfl⟩ <;> decide

/-- Claim C8 as amended: every processed file increments the total-files
counter exactly once regardless of the decision; each decision then
increments exactly its own fixed set of counters (skip-by-extension:
`skipped_files` and `skipped_by_ext`; skip-by-header: `skipped_files` and
`skipped_by_header`; markup: the extraction counters followed by `xml_files`
and `processed_files`; plain text: `processed_files`; unhandled:
`skipped_files` alone); all counters start at zero and only increase. -/
theorem C8_amended_counters (f : FileInput) (parsed : Option Elem)
    (stats : Stats) :
    process_single_file f parsed stats = expected_stats f parsed stats ∧
    statsLe stats (process_single_file f parsed stats) ∧
    init_stats = Stats.mk 0 0 0 0 0 0 0 0 0 :=
  ⟨process_single_file_eq_expected f parsed stats,
    process_single_file_statsLe f parsed stats, rfl⟩

/-- Claim C9: `.xml` itself is in the ignored-extension set, so every file
whose lowercased extension is `.xml` takes the skip-by-extension branch —
incrementing the total, skipped and skipped-by-extension counters and
nothing else — and never reaches markup detection or fragment extraction,
regardless of its content and of whatever the parser would have returned. -/
theorem C9_xml_extension_always_skipped (ext : List Char) (content : List Nat)
    (parsed : Option Elem) (stats : Stats)
    (h : pyLower ext = ".xml".toList) :
    ".xml".toList ∈ IGNORE_EXTENSIONS ∧
    process_single_file_decision ⟨ext, content⟩ =
      ClassificationDecision.SkipExtension ∧
    process_single_file ⟨ext, content⟩ parsed stats =
      { stats with
        total_files := stats.total_files + 1
        skipped_files := stats.skipped_files + 1
        skipped_by_ext := stats.skipped_by_ext + 1 } := by
  have hskip : should_skip_by_extension ext = true := by
    unfold should_skip_by_extension
    rw [h]
    decide
  refine ⟨by decide, ?_, ?_⟩
  · unfold process_single_file_decision
    dsimp only
    rw [hskip]
    rfl
  · unfold process_single_file
    dsimp only
    rw [hskip]
    rfl

/-- Witness for C9: an uppercase `.XML` extension with markup-looking
content is still skipped by extension. -/
theorem C9_witness :
    pyLower ".XML".toList = ".xml".toList ∧
    (".xml".toList ∈ IGNORE_EXTENSIONS ∧
    process_single_file_decision
      ⟨".XML".toList, "<?xml version".toList.map Char.toNat⟩ =
      ClassificationDecision.SkipExtension ∧
    process_single_file ⟨".XML".toList, "<?xml version".toList.map Char.toNat⟩
      none init_stats =
      { init_stats with
        total_files := init_stats.total_files + 1
        skipped_files := init_stats.skipped_files + 1
        skipped_by_ext := init_stats.skipped_by_ext + 1 }) :=
  ⟨by decide,
    C9_xml_extension_always_skipped ".XML".toList
      ("<?xml version".toList.map Char.toNat) none init_stats (by decide)⟩

/-- Every output of the Payload Decoder is a non-empty trim of the
CR-normalized decoded text. -/
theorem decode_output_form (raw : List Char) :
    decode_rawitemdata_base64 raw = none ∨
    ∃ txt, decode_rawitemdata_base64 raw =
        some (pyStrip (replaceCR (replaceCRLF txt))) ∧
      pyStrip (replaceCR (replaceCRLF txt)) ≠ [] := by
  unfold decode_rawitemdata_base64
  dsimp only
  split_ifs with h1 h2
  · left; rfl
  · left; rfl
  · cases hb : b64decodePy ((List.filter (fun c => !isPySpace c) raw).map
      Char.toNat) with
    | none => left; rfl
    | some decoded =>
      dsimp only
      split_ifs with h3 h4 h5
      · left; rfl
      · left; rfl
      · left; rfl
      · right
        refine ⟨(match utf8Decode decoded with
          | some s => s
          | none => latin1Decode decoded), rfl, ?_⟩
        intro he
        rw [← List.isEmpty_iff] at he
        exact h5 he

/-- Claim C10: whenever the Payload Decoder produces an output, that output
is a non-empty string with no leading or trailing whitespace and containing
no carriage-return character. -/
theorem C10_decoder_output_shape (raw t : List Char)
    (h : decode_rawitemdata_base64 raw = some t) :
    t ≠ [] ∧
    (∀ c, t.head? = some c → isPySpace c = false) ∧
    (∀ c, t.getLast? = some c → isPySpace c = false) ∧
    '\r' ∉ t := by
  rcases decode_output_form raw with hn | ⟨txt, he, hne⟩
  · rw [hn] at h
    exact Option.noConfusion h
  · rw [he] at h
    have ht : t = pyStrip (replaceCR (replaceCRLF txt)) :=
      (Option.some.injEq _ _ ▸ h).symm
    subst ht
    refine ⟨hne, ?_, ?_, ?_⟩
    · intro c hc
      exact pyStrip_head_not_space _ c hc
    · intro c hc
      exact pyStrip_getLast_not_space _ c hc
    · intro hc
      exact replaceCR_not_CR (replaceCRLF txt) (mem_pyStrip _ _ hc)

/-- Witness for C10: `aGkx==` — an input with excess trailing padding that
CPython's strict mode accepts — produces the output `hi1`, which is
non-empty, trimmed and CR-free. -/
theorem C10_witness :
    decode_rawitemdata_base64 "aGkx==".toList = some "hi1".toList ∧
    ("hi1".toList ≠ [] ∧
    (∀ c, "hi1".toList.head? = some c → isPySpace c = false) ∧
    (∀ c, "hi1".toList.getLast? = some c → isPySpace c = false) ∧
    '\r' ∉ "hi1".toList) :=
  ⟨by decide, C10_decoder_output_shape "aGkx==".toList "hi1".toList (by decide)⟩

end CleanCount
